import Mathlib

/-!
Verification development for the `sericom` serial-console client.

This file gives a shallow embedding, in Lean, of the core data structures and
operations of the repository — the streaming byte parser
(`sericom-core/src/ui/ascii/parser.rs`), the screen buffer with its escape
sequence engine (`sericom-core/src/screen_buffer/`), the SGR color processor
(`sericom-core/src/ui/ascii/colors.rs`), the serial actor loop
(`sericom-core/src/serial_actor/mod.rs`) and the file-output forwarder
(`sericom-core/src/serial_actor/tasks.rs`) — and proves or refutes the
specification's claims about them.

Conventions of the embedding:
* Rust `u8` bytes / `char` code points are `Nat` values; machine-width
  wrap-around and saturation are written out explicitly (`% 65536`,
  `min _ 65535`) where the source relies on `u16`/`usize` semantics.
* Fallible Rust code (index panics, `unwrap`, checked arithmetic in
  overflow-checking builds) is embedded in `Option`: `none` models a panic.
* Stateful methods become functions `State → State` (or `State → Option State`).
-/

namespace Sericom

/-! ## Byte parser (`sericom-core/src/ui/ascii/parser.rs`) -/

/-- `ParserEvent` from `parser.rs`: text runs, single control bytes, and
escape sequences. -/
inductive ParserEvent where
  | text (bytes : List Nat)
  | control (byte : Nat)
  | escapeSequence (bytes : List Nat)
  deriving DecidableEq, Repr

/-- `ParseState` from `parser.rs`. -/
inductive ParseState where
  | normal
  | esc
  | csi
  deriving DecidableEq, Repr

/-- `ByteParser` from `parser.rs`: current state plus the pending byte buffer. -/
structure ByteParser where
  state : ParseState
  buffer : List Nat
  deriving DecidableEq, Repr

/-- `ByteParser::new()`. -/
def ByteParser.new : ByteParser := ⟨ParseState.normal, []⟩

/-- `u8::is_ascii`: the byte is in `0x00 ..= 0x7F`. -/
def isAsciiByte (b : Nat) : Bool := b < 128

/-- `u8::is_ascii_alphabetic`. -/
def isAsciiAlphaByte (b : Nat) : Bool :=
  (65 ≤ b && b ≤ 90) || (97 ≤ b && b ≤ 122)

/-- One iteration of the `for &b in data` loop in `ByteParser::feed`:
the events pushed for this byte and the updated parser. -/
def ByteParser.stepByte (p : ByteParser) (b : Nat) : List ParserEvent × ByteParser :=
  if ¬ isAsciiByte b then ([], p)
  else
    match p.state with
    | ParseState.normal =>
        if b = 27 then
          ((if p.buffer ≠ [] then [ParserEvent.text p.buffer] else []),
            ⟨ParseState.esc, [b]⟩)
        else if b ≤ 31 ∨ b = 127 then
          ((if p.buffer ≠ [] then [ParserEvent.text p.buffer] else []) ++
              [ParserEvent.control b],
            ⟨ParseState.normal, []⟩)
        else
          ([], ⟨ParseState.normal, p.buffer ++ [b]⟩)
    | ParseState.esc =>
        if b = 91 then ([], ⟨ParseState.csi, p.buffer ++ [b]⟩)
        else ([ParserEvent.escapeSequence (p.buffer ++ [b])], ⟨ParseState.normal, []⟩)
    | ParseState.csi =>
        if isAsciiAlphaByte b then
          ([ParserEvent.escapeSequence (p.buffer ++ [b])], ⟨ParseState.normal, []⟩)
        else ([], ⟨ParseState.csi, p.buffer ++ [b]⟩)

/-- The byte loop of `ByteParser::feed`, before the trailing text flush. -/
def ByteParser.feedCore (p : ByteParser) : List Nat → List ParserEvent × ByteParser
  | [] => ([], p)
  | b :: rest =>
      let (evs, p') := p.stepByte b
      let (evs', p'') := p'.feedCore rest
      (evs ++ evs', p'')

/-- The trailing flush of `feed`: in `Normal` state a non-empty buffer is
emitted as `Text`. -/
def ByteParser.flushEnd (p : ByteParser) : List ParserEvent × ByteParser :=
  if p.state = ParseState.normal ∧ p.buffer ≠ [] then
    ([ParserEvent.text p.buffer], ⟨ParseState.normal, []⟩)
  else ([], p)

/-- `ByteParser::feed`. -/
def ByteParser.feed (p : ByteParser) (data : List Nat) : List ParserEvent × ByteParser :=
  let (evs, p') := p.feedCore data
  let (evs', p'') := p'.flushEnd
  (evs ++ evs', p'')

/-- Feed a sequence of chunks to one parser, collecting all events in order. -/
def ByteParser.feedChunks (p : ByteParser) : List (List Nat) → List ParserEvent × ByteParser
  | [] => ([], p)
  | c :: cs =>
      let (evs, p') := p.feed c
      let (evs', p'') := p'.feedChunks cs
      (evs ++ evs', p'')

/-- The payload of a parser event: the bytes of a `Text` run, the single
control byte, or the bytes of an `EscapeSequence`. -/
def ParserEvent.payload : ParserEvent → List Nat
  | ParserEvent.text bs => bs
  | ParserEvent.control b => [b]
  | ParserEvent.escapeSequence bs => bs

/-- Concatenation, in emission order, of the payloads of a list of events. -/
def payloads (evs : List ParserEvent) : List Nat :=
  evs.flatMap ParserEvent.payload

/-- The ASCII-only subsequence of a byte stream. -/
def asciiFilter (data : List Nat) : List Nat :=
  data.filter isAsciiByte

end Sericom

namespace Sericom

/-! ## Styled-cell data model (`sericom-core/src/screen_buffer/{cell,line}.rs`) -/

/-- The crossterm `Color` constructors the repository uses. -/
inductive SColor where
  | reset | black | darkGrey | red | darkRed | green | darkGreen
  | yellow | darkYellow | blue | darkBlue | magenta | darkMagenta
  | cyan | darkCyan | white | grey
  | ansiValue (n : Nat)
  | rgb (r g b : Nat)
  deriving DecidableEq, Repr

/-- The configuration fields the screen-buffer core reads
(`config.appearance.fg` / `config.appearance.bg`). -/
structure Config where
  fg : SColor
  bg : SColor
  deriving DecidableEq, Repr

/-- A screen cell: character, style colors and selection flag. -/
structure SCell where
  character : Nat
  fg : SColor
  bg : SColor
  isSelected : Bool
  deriving DecidableEq, Repr

/-- `Cell::default()`: a space in the configured colors, not selected. -/
def defaultCell (cfg : Config) : SCell :=
  ⟨32, cfg.fg, cfg.bg, false⟩

/-- A `Line` is a vector of cells. -/
abbrev SLine := List SCell

/-- `Line::new_default(width)`: `width` default cells. -/
def newDefaultLine (cfg : Config) (width : Nat) : SLine :=
  List.replicate width (defaultCell cfg)

/-- `Line::set_char(idx, ch)`: unchecked index — `none` models the panic when
`idx` is out of bounds. -/
def lineSetChar (l : SLine) (idx ch : Nat) : Option SLine :=
  match l.get? idx with
  | some c => some (l.set idx { c with character := ch })
  | none => none

/-- `Line::reset()`: every cell back to default. -/
def lineReset (cfg : Config) (l : SLine) : SLine :=
  l.map fun _ => defaultCell cfg

/-- `Line::reset_from(idx)`: cells from `idx` on back to default. -/
def lineResetFrom (cfg : Config) (idx : Nat) (l : SLine) : SLine :=
  l.take idx ++ (l.drop idx).map fun _ => defaultCell cfg

/-- `Line::reset_to(idx)`: cells before `idx` back to default; the slice
`self.0[..idx]` panics (`none`) when `idx > len`. -/
def lineResetTo (cfg : Config) (idx : Nat) (l : SLine) : Option SLine :=
  if idx ≤ l.length then
    some (((l.take idx).map fun _ => defaultCell cfg) ++ l.drop idx)
  else none

/-- `Line::clear_selection()`. -/
def lineClearSelection (l : SLine) : SLine :=
  l.map fun c => { c with isSelected := false }

/-! ## Screen buffer state (`sericom-core/src/screen_buffer/`) -/

/-- Cursor position: `x` a column (`u16` in Rust), `y` an absolute scrollback
line index (`usize`). -/
structure Pos where
  x : Nat
  y : Nat
  deriving DecidableEq, Repr

/-- `EscapeState` from `escape.rs` (the screen buffer's own state machine,
distinct from the byte parser's). -/
inductive EscState where
  | normal
  | esc
  | csi
  deriving DecidableEq, Repr

/-- `EscapePart` from `escape.rs`. `numbers` holds the ASCII digit code points
collected so far. -/
inductive EscPart where
  | empty
  | numbers (digits : List Nat)
  | separator
  | action (ch : Nat)
  deriving DecidableEq, Repr

/-- `EscapeSequence` from `escape.rs`: completed parts plus the in-progress
part. -/
structure EscSeqSt where
  sequence : List EscPart
  part : EscPart
  deriving DecidableEq, Repr

/-- `EscapeSequence::new()` / `reset()`. -/
def EscSeqSt.init : EscSeqSt := ⟨[], EscPart.empty⟩

/-- `EscapeSequence::push_part` (private helper). -/
def EscSeqSt.pushPart (s : EscSeqSt) : EscSeqSt :=
  ⟨s.sequence ++ [s.part], EscPart.empty⟩

/-- `EscapeSequence::insert_separator`. -/
def insertSeparator (s : EscSeqSt) : EscSeqSt :=
  let s := if s.part ≠ EscPart.empty then s.pushPart else s
  { s with sequence := s.sequence ++ [EscPart.separator] }

/-- `EscapeSequence::push_num`. -/
def pushNum (d : Nat) (s : EscSeqSt) : EscSeqSt :=
  { s with part := match s.part with
      | EscPart.numbers ds => EscPart.numbers (ds ++ [d])
      | _ => EscPart.numbers [d] }

/-- `EscapeSequence::push_action`. -/
def pushAction (a : Nat) (s : EscSeqSt) : EscSeqSt :=
  let s := if s.part ≠ EscPart.empty then s.pushPart else s
  { s with sequence := s.sequence ++ [EscPart.action a] }

/-- `MAX_SCROLLBACK` from `screen_buffer/mod.rs`. -/
def MAX_SCROLLBACK : Nat := 10000

/-- The `ScreenBuffer` state (fields of the struct in
`screen_buffer/mod.rs`, with the terminal `Rect` flattened to
width/height; the render timestamp is omitted as no modelled operation
reads it). -/
structure ScreenBuffer where
  width : Nat
  height : Nat
  lines : List SLine
  viewStart : Nat
  cursor : Pos
  selectionStart : Option (Nat × Nat)
  selectionEnd : Option (Nat × Nat)
  maxScrollback : Nat
  escState : EscState
  escSeq : EscSeqSt
  needsRender : Bool
  deriving DecidableEq, Repr

/-- `ScreenBuffer::new`: one empty default line, cursor at the origin,
`max_scrollback = MAX_SCROLLBACK`. -/
def ScreenBuffer.new (cfg : Config) (width height : Nat) : ScreenBuffer where
  width := width
  height := height
  lines := [newDefaultLine cfg width]
  viewStart := 0
  cursor := ⟨0, 0⟩
  selectionStart := none
  selectionEnd := none
  maxScrollback := MAX_SCROLLBACK
  escState := EscState.normal
  escSeq := EscSeqSt.init
  needsRender := false

/-! ### Cursor trait impl (`cursor.rs`) -/

/-- `set_cursor_pos`. -/
def ScreenBuffer.setCursorPos (b : ScreenBuffer) (x y : Nat) : ScreenBuffer :=
  { b with cursor := ⟨x, y⟩ }

/-- `move_cursor_left`: saturating at 0. -/
def moveCursorLeft (b : ScreenBuffer) (n : Nat) : ScreenBuffer :=
  { b with cursor := ⟨b.cursor.x - n, b.cursor.y⟩ }

/-- `move_cursor_up`: saturating at 0. -/
def moveCursorUp (b : ScreenBuffer) (n : Nat) : ScreenBuffer :=
  { b with cursor := ⟨b.cursor.x, b.cursor.y - n⟩ }

/-- `move_cursor_right`: `u16::saturating_add`. -/
def moveCursorRight (b : ScreenBuffer) (n : Nat) : ScreenBuffer :=
  { b with cursor := ⟨min (b.cursor.x + n) 65535, b.cursor.y⟩ }

/-- `set_cursor_col`. -/
def setCursorCol (b : ScreenBuffer) (col : Nat) : ScreenBuffer :=
  { b with cursor := ⟨col, b.cursor.y⟩ }

/-- The `while <target beyond end> { push_back(new line) }` growth loops:
append default lines until the length reaches `target` (no-op when already
long enough). -/
def growTo (cfg : Config) (w target : Nat) (lines : List SLine) : List SLine :=
  lines ++ List.replicate (target - lines.length) (newDefaultLine cfg w)

/-- `move_cursor_down`: saturating add on `y`, then grow the scrollback
`while cursor.y > lines.len()` (no trimming — see C2). -/
def moveCursorDown (cfg : Config) (b : ScreenBuffer) (n : Nat) : ScreenBuffer :=
  let y := b.cursor.y + n
  { b with cursor := ⟨b.cursor.x, y⟩, lines := growTo cfg b.width y b.lines }

/-! ### Scrollback append and trim (`mod.rs::new_line`) -/

/-- The `while lines.len() > max_scrollback { pop_front; … }` trim loop:
drops oldest lines, decrementing `cursor.y` and `view_start` (saturating)
once per dropped line. -/
def trimLoop (maxSb : Nat) : List SLine → Nat → Nat → List SLine × Nat × Nat
  | [], y, vs => ([], y, vs)
  | l :: rest, y, vs =>
      if rest.length + 1 > maxSb then trimLoop maxSb rest (y - 1) (vs - 1)
      else (l :: rest, y, vs)

/-- `ScreenBuffer::new_line`: cursor to the start of the next line, push one
fresh line if needed, then trim to `max_scrollback`. -/
def ScreenBuffer.newLine (cfg : Config) (b : ScreenBuffer) : ScreenBuffer :=
  let y := b.cursor.y + 1
  let lines :=
    if y ≥ b.lines.length then b.lines ++ [newDefaultLine cfg b.width] else b.lines
  let t := trimLoop b.maxScrollback lines y b.viewStart
  { b with cursor := ⟨0, t.2.1⟩, lines := t.1, viewStart := t.2.2 }

/-- `ScreenBuffer::set_char_at_cursor`: grow so line `cursor.y` exists, then
write the character, guarded by `cursor.x < line.len()`. -/
def setCharAtCursor (cfg : Config) (ch : Nat) (b : ScreenBuffer) : ScreenBuffer :=
  let lines := growTo cfg b.width (b.cursor.y + 1) b.lines
  match lines.get? b.cursor.y with
  | some l =>
      if b.cursor.x < l.length then
        { b with lines := lines.set b.cursor.y ((lineSetChar l b.cursor.x ch).getD l) }
      else { b with lines := lines }
  | none => { b with lines := lines }

/-! ### Erase operations (`mod.rs`) -/

/-- Apply `f` to the lines with index in `[a, bnd)` (the effect of
`range_mut(a..bnd)` plus a reset of each). -/
def mapRange (f : SLine → SLine) (lines : List SLine) (a bnd : Nat) : List SLine :=
  lines.mapIdx fun i l => if a ≤ i ∧ i < bnd then f l else l

/-- `clear_from_cursor_to_sol`: `Line::reset_to(cursor.x)` on the cursor
line (panics when `cursor.x` exceeds the line length). -/
def clearFromCursorToSol (cfg : Config) (b : ScreenBuffer) : Option ScreenBuffer :=
  match b.lines.get? b.cursor.y with
  | none => some b
  | some l =>
      (lineResetTo cfg b.cursor.x l).map fun l' =>
        { b with lines := b.lines.set b.cursor.y l' }

/-- `clear_from_cursor_to_sos`: start-of-line clear, then reset the lines in
`range_mut(view_start..cursor.y)` — which panics (`none`) when
`view_start > cursor.y` or `cursor.y > lines.len()`. -/
def clearFromCursorToSos (cfg : Config) (b : ScreenBuffer) : Option ScreenBuffer := do
  let b' ← clearFromCursorToSol cfg b
  if b'.viewStart ≤ b'.cursor.y ∧ b'.cursor.y ≤ b'.lines.length then
    some { b' with lines := mapRange (lineReset cfg) b'.lines b'.viewStart b'.cursor.y }
  else none

/-- `clear_from_cursor_to_eol`. -/
def clearFromCursorToEol (cfg : Config) (b : ScreenBuffer) : ScreenBuffer :=
  match b.lines.get? b.cursor.y with
  | none => b
  | some l => { b with lines := b.lines.set b.cursor.y (lineResetFrom cfg b.cursor.x l) }

/-- `clear_from_cursor_to_eos`: end-of-line clear, then reset the lines in
`range_mut(cursor.y + 1..)` — which panics (`none`) when
`cursor.y + 1 > lines.len()`. -/
def clearFromCursorToEos (cfg : Config) (b : ScreenBuffer) : Option ScreenBuffer :=
  let b' := clearFromCursorToEol cfg b
  if b'.cursor.y + 1 ≤ b'.lines.length then
    some { b' with lines := mapRange (lineReset cfg) b'.lines (b'.cursor.y + 1) b'.lines.length }
  else none

/-- `clear_whole_line`. -/
def clearWholeLine (cfg : Config) (b : ScreenBuffer) : ScreenBuffer :=
  match b.lines.get? b.cursor.y with
  | none => b
  | some l => { b with lines := b.lines.set b.cursor.y (lineReset cfg l) }

end Sericom

namespace Sericom

/-! ### UI actions (`ui_command.rs`) -/

/-- `clear_selection`: drop per-cell highlight flags and both anchors. -/
def clearSelection (b : ScreenBuffer) : ScreenBuffer :=
  { b with lines := b.lines.map lineClearSelection,
           selectionStart := none, selectionEnd := none, needsRender := true }

/-- `scroll_up(lines)`. -/
def scrollUp (b : ScreenBuffer) (n : Nat) : ScreenBuffer :=
  clearSelection { b with viewStart := if b.viewStart ≥ n then b.viewStart - n else 0 }

/-- `scroll_down(lines)`. -/
def scrollDown (b : ScreenBuffer) (n : Nat) : ScreenBuffer :=
  clearSelection { b with viewStart := min (b.viewStart + n) (b.lines.length - b.height) }

/-- `scroll_to_bottom`. -/
def scrollToBottom (b : ScreenBuffer) : ScreenBuffer :=
  { b with viewStart := b.lines.length - b.height, needsRender := true }

/-- `scroll_to_top`. -/
def scrollToTop (b : ScreenBuffer) : ScreenBuffer :=
  { b with viewStart := 0, needsRender := true }

/-- `start_selection(screen_x, screen_y)`. -/
def startSelection (b : ScreenBuffer) (sx sy : Nat) : ScreenBuffer :=
  let absLine := b.viewStart + sy
  let b' := clearSelection b
  { b' with selectionStart := some (sx, absLine), needsRender := true }

/-- Selection normalization, as written in `update_selection_highlighting`
and `get_selected_text`: anchors are `(x, line)` pairs, ordered by line then
by column. -/
def normSel (s e : Nat × Nat) : (Nat × Nat) × (Nat × Nat) :=
  if s.2 < e.2 ∨ (s.2 = e.2 ∧ s.1 ≤ e.1) then (s, e) else (e, s)

/-- `update_selection_highlighting`: clear all flags, then set
`is_selected` on the normalized inclusive range. -/
def updateSelectionHighlighting (b : ScreenBuffer) : ScreenBuffer :=
  let lines := b.lines.map lineClearSelection
  match b.selectionStart, b.selectionEnd with
  | some s0, some e0 =>
      let n := normSel s0 e0
      let sx := n.1.1; let sl := n.1.2; let ex := n.2.1; let el := n.2.2
      { b with lines := lines.mapIdx fun li l =>
          if sl ≤ li ∧ li ≤ el then
            l.mapIdx fun x c =>
              let lsx := if li = sl then sx else 0
              let lex := if li = el then ex else b.width - 1
              if lsx ≤ x ∧ x ≤ min lex (b.width - 1) then { c with isSelected := true }
              else c
          else l }
  | _, _ => { b with lines := lines }

/-- `update_selection(screen_x, screen_y)`. -/
def updateSelection (b : ScreenBuffer) (sx sy : Nat) : ScreenBuffer :=
  let absLine := b.viewStart + sy
  let b' := updateSelectionHighlighting { b with selectionEnd := some (sx, absLine) }
  { b' with needsRender := true }

/-- The inclusive range `a ..= bnd` of a Rust `for` loop (empty when
`a > bnd`). -/
def rangeIncl (a bnd : Nat) : List Nat :=
  (List.range (bnd + 1 - a)).map (a + ·)

/-- Rust `char::is_whitespace` (the Unicode `White_Space` code points). -/
def isRustWhitespace (c : Nat) : Bool :=
  c = 32 || (9 ≤ c && c ≤ 13) || c = 133 || c = 160 || c = 5760 ||
  (8192 ≤ c && c ≤ 8202) || c = 8232 || c = 8233 || c = 8239 || c = 8287 || c = 12288

/-- `str::trim_end`. -/
def trimEnd (l : List Nat) : List Nat :=
  (l.reverse.dropWhile isRustWhitespace).reverse

/-- `get_selected_text`: characters of the normalized inclusive selection
range, `\n` between lines, trailing whitespace trimmed. -/
def getSelectedText (b : ScreenBuffer) : List Nat :=
  match b.selectionStart, b.selectionEnd with
  | some s0, some e0 =>
      let n := normSel s0 e0
      let sx := n.1.1; let sl := n.1.2; let ex := n.2.1; let el := n.2.2
      let chars := (rangeIncl sl el).flatMap fun li =>
        match b.lines.get? li with
        | none => []
        | some l =>
            ((rangeIncl (if li = sl then sx else 0)
                (min (if li = el then ex else b.width - 1) (b.width - 1))).filterMap
              fun x => (l.get? x).map SCell.character) ++
            (if li < el then [10] else [])
      trimEnd chars
  | _, _ => []

/-- The screen-buffer state effect of `copy_to_clipboard` (the OSC-52
terminal write is I/O; the state change is `clear_selection`). -/
def copySelectionState (b : ScreenBuffer) : ScreenBuffer :=
  clearSelection b

/-- `clear_buffer`. -/
def clearBuffer (cfg : Config) (b : ScreenBuffer) : ScreenBuffer :=
  { b with lines := [newDefaultLine cfg b.width], viewStart := 0,
           cursor := ⟨0, 0⟩, needsRender := true }

/-- `clear_screen`: push `height` fresh lines, then anchor the view at the
bottom (no trimming — see C2). -/
def clearScreen (cfg : Config) (b : ScreenBuffer) : ScreenBuffer :=
  let lines := b.lines ++ List.replicate b.height (newDefaultLine cfg b.width)
  { b with lines := lines, viewStart := lines.length - b.height, needsRender := true }

/-! ### CSI dispatch (`escape.rs::parse_sequence`) -/

/-- Decimal value of a list of ASCII digit code points. -/
def digitsToNat (ds : List Nat) : Nat :=
  ds.foldl (fun acc d => 10 * acc + (d - 48)) 0

/-- `String::parse::<u16>()` on collected digits followed by `unwrap`:
`none` (panic) on the empty string or on a value over `u16::MAX`. -/
def parseU16 (ds : List Nat) : Option Nat :=
  if ds = [] then none
  else if digitsToNat ds ≤ 65535 then some (digitsToNat ds) else none

/-- Unsigned subtraction with overflow check (a debug-build panic is
`none`). -/
def checkedSub (a bnd : Nat) : Option Nat :=
  if bnd ≤ a then some (a - bnd) else none

/-- `u16` addition with overflow check (a debug-build panic is `none`). -/
def checkedAddU16 (a b : Nat) : Option Nat :=
  if a + b ≤ 65535 then some (a + b) else none

/-- `ScreenBuffer::parse_sequence`: dispatch on the collected escape-sequence
parts.  Code points: `H` 72, `f` 102, `A`–`G` 65–71, `J` 74, `K` 75. -/
def parseSequence (cfg : Config) (b : ScreenBuffer) : Option ScreenBuffer :=
  match b.escSeq.sequence with
  | [EscPart.numbers lineNums, EscPart.separator, EscPart.numbers colNums,
     EscPart.action a] =>
      if a = 72 ∨ a = 102 then do
        let ln ← parseU16 lineNums
        let cn ← parseU16 colNums
        let base ← checkedSub (b.lines.length % 65536) b.height
        let y ← if ln ≤ 1 then pure base else checkedAddU16 ln base
        pure { b.setCursorPos cn y with escState := EscState.normal }
      else pure { b with escState := EscState.normal }
  | [EscPart.separator, EscPart.numbers colNums, EscPart.action a] =>
      if a = 72 ∨ a = 102 then do
        let cn ← parseU16 colNums
        pure { b with cursor := ⟨cn, b.cursor.y⟩, escState := EscState.normal }
      else pure { b with escState := EscState.normal }
  | [EscPart.numbers nums, EscPart.action a] => do
      let num ← parseU16 nums
      let b' ←
        if a = 65 then pure (moveCursorUp b num)
        else if a = 66 then pure (moveCursorDown cfg b num)
        else if a = 67 then pure (moveCursorRight b num)
        else if a = 68 then pure (moveCursorLeft b num)
        else if a = 69 then do
          let y ← checkedAddU16 (b.cursor.y % 65536) num
          let b1 := b.setCursorPos 0 y
          pure { b1 with lines := growTo cfg b1.width y b1.lines }
        else if a = 70 then do
          let y ← checkedSub (b.cursor.y % 65536) num
          pure (b.setCursorPos 0 y)
        else if a = 71 then pure (setCursorCol b num)
        else if a = 74 then
          if num = 0 then clearFromCursorToEos cfg b
          else if num = 1 then clearFromCursorToSos cfg b
          else if num = 2 then pure (clearScreen cfg b)
          else pure b
        else if a = 75 then
          if num = 0 then pure (clearFromCursorToEol cfg b)
          else if num = 1 then clearFromCursorToSol cfg b
          else if num = 2 then pure (clearWholeLine cfg b)
          else pure b
        else pure b
      pure { b' with escState := EscState.normal }
  | [EscPart.action a] => do
      let b' ←
        if a = 72 then pure { b with cursor := ⟨0, 0⟩ }
        else if a = 74 then clearFromCursorToEos cfg b
        else if a = 75 then pure (clearFromCursorToEol cfg b)
        else if a = 67 then pure (moveCursorRight b 1)
        else if a = 68 then pure (moveCursorLeft b 1)
        else pure b
      pure { b' with escState := EscState.normal }
  | _ => pure { b with escState := EscState.normal }

end Sericom

namespace Sericom

/-! ### Ingestion (`render.rs::add_data`) -/

/-- Rust `char::is_control` (Unicode `Cc`: C0, DEL and C1). -/
def isControlCp (c : Nat) : Bool :=
  c ≤ 31 || (127 ≤ c && c ≤ 159)

/-- `char::is_ascii_digit`. -/
def isAsciiDigit (c : Nat) : Bool :=
  48 ≤ c && c ≤ 57

/-- The inner batching loop of `add_data`: starting from `acc` collect
following characters until a control char, an ESC, or
`cursor.x + batch.len() ≥ width`; returns the batch and what is left. -/
def collectBatch (x w : Nat) (acc : List Nat) : List Nat → List Nat × List Nat
  | [] => (acc, [])
  | n :: rest =>
      if isControlCp n ∨ n = 27 ∨ x + acc.length ≥ w then (acc, n :: rest)
      else collectBatch x w (acc ++ [n]) rest

theorem collectBatch_snd_length (x w : Nat) (acc l : List Nat) :
    (collectBatch x w acc l).2.length ≤ l.length := by
  induction l generalizing acc with
  | nil => simp [collectBatch]
  | cons n rest ih =>
      simp only [collectBatch]
      split
      · simp
      · exact le_trans (ih (acc ++ [n])) (Nat.le_succ _)

/-- The character-writing loop of `add_char_batch`: write each batch
character at the cursor (unchecked index: `none` is the panic), advance the
cursor, and wrap to `new_line` (breaking out) when the cursor reaches the
width. -/
def writeChars (cfg : Config) : ScreenBuffer → List Nat → Option ScreenBuffer
  | b, [] => some b
  | b, ch :: rest =>
      match b.lines.get? b.cursor.y with
      | none => some b
      | some l =>
          match lineSetChar l b.cursor.x ch with
          | none => none
          | some l' =>
              let b' := { b with lines := b.lines.set b.cursor.y l',
                                 cursor := ⟨b.cursor.x + 1, b.cursor.y⟩ }
              if b'.cursor.x ≥ b'.width then some (ScreenBuffer.newLine cfg b')
              else writeChars cfg b' rest

/-- `add_char_batch`: grow the scrollback so the cursor line exists, then
write the batch. -/
def addCharBatch (cfg : Config) (batch : List Nat) (b : ScreenBuffer) :
    Option ScreenBuffer :=
  writeChars cfg { b with lines := growTo cfg b.width (b.cursor.y + 1) b.lines } batch

/-- The main loop of `add_data` over the decoded characters (code points):
CR (with CRLF pairing), LF, ignored controls, BS (with the
`\x08 ' ' \x08` deletion pattern), ESC entry, text batching, and the
`Esc`/`Csi` escape-sequence states. -/
def processChars (cfg : Config) : ScreenBuffer → List Nat → Option ScreenBuffer
  | b, [] => some b
  | b, c :: rest =>
      match b.escState with
      | EscState.normal =>
          if c = 13 then
            -- the `chars.peek() == Some('\n')` pairing consumes the LF
            if rest.head? = some 10 then
              processChars cfg
                (ScreenBuffer.newLine cfg { b with cursor := ⟨0, b.cursor.y⟩ }) rest.tail
            else processChars cfg { b with cursor := ⟨0, b.cursor.y⟩ } rest
          else if c = 10 then processChars cfg (ScreenBuffer.newLine cfg b) rest
          else if c = 7 ∨ c = 14 ∨ c = 15 then processChars cfg b rest
          else if c = 8 then
            -- the `\x08 ' ' \x08` deletion look-ahead consumes two characters
            if rest.take 2 = [32, 8] then
              processChars cfg (setCharAtCursor cfg 32 (moveCursorLeft b 1)) (rest.drop 2)
            else processChars cfg (moveCursorLeft b 1) rest
          else if c = 27 then processChars cfg { b with escState := EscState.esc } rest
          else
            let pr := collectBatch b.cursor.x b.width [c] rest
            match addCharBatch cfg pr.1 b with
            | none => none
            | some b' => processChars cfg b' pr.2
      | EscState.esc =>
          if c = 91 then processChars cfg { b with escState := EscState.csi } rest
          else processChars cfg { b with escState := EscState.normal } rest
      | EscState.csi =>
          if c = 59 then
            processChars cfg { b with escSeq := insertSeparator b.escSeq } rest
          else if isAsciiDigit c then
            processChars cfg { b with escSeq := pushNum c b.escSeq } rest
          else if isAsciiAlphaByte c then
            match parseSequence cfg { b with escSeq := pushAction c b.escSeq } with
            | none => none
            | some b' =>
                processChars cfg
                  { b' with escSeq := EscSeqSt.init, escState := EscState.normal } rest
          else processChars cfg { b with escState := EscState.normal } rest
  termination_by _ cs => cs.length
  decreasing_by
    all_goals simp_wf
    all_goals
      first
      | omega
      | exact Nat.lt_succ_of_le (collectBatch_snd_length _ _ _ _)

/-- `ScreenBuffer::add_data`: process the decoded characters, then
`scroll_to_bottom` (which also sets the dirty flag). -/
def addData (cfg : Config) (b : ScreenBuffer) (cs : List Nat) : Option ScreenBuffer :=
  (processChars cfg b cs).map scrollToBottom

end Sericom

namespace Sericom

/-! ## SGR processor (`ui/ascii/colors.rs`) -/

/-- The crossterm `Attribute`s the SGR processor sets. -/
inductive CTAttr where
  | bold | dim | italic | underlined | doubleUnderlined | undercurled
  | underdotted | underdashed | slowBlink | rapidBlink | reverse | hidden
  | crossedOut | fraktur | noBold | normalIntensity | noItalic | noUnderline
  | noBlink | noReverse | noHidden | notCrossedOut | framed | encircled
  | overLined | notFramedOrEncircled | notOverLined
  deriving DecidableEq, Repr

/-- Bit index of an attribute in the crossterm bitmask. -/
def CTAttr.idx : CTAttr → Nat
  | CTAttr.bold => 0 | CTAttr.dim => 1 | CTAttr.italic => 2
  | CTAttr.underlined => 3 | CTAttr.doubleUnderlined => 4
  | CTAttr.undercurled => 5 | CTAttr.underdotted => 6 | CTAttr.underdashed => 7
  | CTAttr.slowBlink => 8 | CTAttr.rapidBlink => 9 | CTAttr.reverse => 10
  | CTAttr.hidden => 11 | CTAttr.crossedOut => 12 | CTAttr.fraktur => 13
  | CTAttr.noBold => 14 | CTAttr.normalIntensity => 15 | CTAttr.noItalic => 16
  | CTAttr.noUnderline => 17 | CTAttr.noBlink => 18 | CTAttr.noReverse => 19
  | CTAttr.noHidden => 20 | CTAttr.notCrossedOut => 21 | CTAttr.framed => 22
  | CTAttr.encircled => 23 | CTAttr.overLined => 24
  | CTAttr.notFramedOrEncircled => 25 | CTAttr.notOverLined => 26

/-- A crossterm `Attributes` bitmask. -/
abbrev Attrs := Nat

/-- `Attributes::set`. -/
def setAttr (a : CTAttr) (m : Attrs) : Attrs := m ||| (2 ^ a.idx)

/-- `Attributes::default()`: the empty set. -/
def noAttrs : Attrs := 0

/-- `ColorState` (`ui/line/color_state.rs`): a crossterm `Colors` pair of
optional foreground/background colors. -/
structure ColorState where
  foreground : Option SColor
  background : Option SColor
  deriving DecidableEq, Repr

/-- `ColorState::default()`: both colors from the configuration. -/
def ColorState.default (cfg : Config) : ColorState :=
  ⟨some cfg.fg, some cfg.bg⟩

/-- `ColorState::set_fg`. -/
def ColorState.setFg (st : ColorState) (c : SColor) : ColorState :=
  ⟨some c, some (st.background.getD SColor.reset)⟩

/-- `ColorState::set_bg`. -/
def ColorState.setBg (st : ColorState) (c : SColor) : ColorState :=
  ⟨some (st.foreground.getD SColor.reset), some c⟩

/-- crossterm `Colored`: a parsed foreground or background color. -/
inductive Colored where
  | fgColor (c : SColor)
  | bgColor (c : SColor)
  deriving DecidableEq, Repr

/-- `From<Colored> for Colors` (external crossterm impl). -/
def coloredToColors : Colored → ColorState
  | Colored.fgColor c => ⟨some c, none⟩
  | Colored.bgColor c => ⟨none, some c⟩

/-- crossterm `Colors::then`: fields of `other` win where set. -/
def colorsThen (self other : ColorState) : ColorState :=
  ⟨other.foreground.orElse fun _ => self.foreground,
   other.background.orElse fun _ => self.background⟩

/-- Rust `slice::split` on the `;` byte (always at least one part). -/
def splitSep (l : List Nat) : List (List Nat) :=
  l.foldr
    (fun c acc =>
      if c = 59 then [] :: acc
      else
        match acc with
        | h :: t => (c :: h) :: t
        | [] => [[c]])
    [[]]

/-- All characters are ASCII digits. -/
def allDigits (ds : List Nat) : Bool := ds.all isAsciiDigit

/-- `str::parse::<u8>()` as an `Option`. -/
def parseU8 (ds : List Nat) : Option Nat :=
  if ds ≠ [] ∧ allDigits ds ∧ digitsToNat ds ≤ 255 then some (digitsToNat ds)
  else none

/-- Modelled from the external crossterm crate: `Colored::parse_ansi`, which
accepts `38;5;N` / `48;5;N` (8-bit palette) and `38;2;R;G;B` / `48;2;R;G;B`
(24-bit) color notations with each component a valid `u8`. -/
def parseAnsiColored (s : List Nat) : Option Colored :=
  match splitSep s with
  | [x, y, n] =>
      if y = [53] then
        if x = [51, 56] then (parseU8 n).map fun v => Colored.fgColor (SColor.ansiValue v)
        else if x = [52, 56] then (parseU8 n).map fun v => Colored.bgColor (SColor.ansiValue v)
        else none
      else none
  | [x, y, r, g, bb] =>
      if y = [50] then
        match parseU8 r, parseU8 g, parseU8 bb with
        | some rv, some gv, some bv =>
            if x = [51, 56] then some (Colored.fgColor (SColor.rgb rv gv bv))
            else if x = [52, 56] then some (Colored.bgColor (SColor.rgb rv gv bv))
            else none
        | _, _, _ => none
      else none
  | _ => none

/-- `ColorState::set_colors`: apply a parsed ANSI color over the current
colors; keep the current colors when parsing fails. -/
def ColorState.setColors (st : ColorState) (s : List Nat) : ColorState :=
  match parseAnsiColored s with
  | some col => colorsThen st (coloredToColors col)
  | none => st

/-- `handle_colors_and_attrs`: the big match on a single SGR parameter
(bytes of the parameter, e.g. `[48] = "0"`, `[51, 49] = "31"`). -/
def handleColorsAndAttrs (cfg : Config) (body : List Nat) (cs : ColorState)
    (at_ : Attrs) : ColorState × Attrs :=
  if body = [48] then (ColorState.default cfg, noAttrs)
  else if body = [49] then (cs, setAttr CTAttr.bold at_)
  else if body = [50] then (cs, setAttr CTAttr.dim at_)
  else if body = [51] then (cs, setAttr CTAttr.italic at_)
  else if body = [52] then (cs, setAttr CTAttr.underlined at_)
  else if body = [52, 58, 50] then (cs, setAttr CTAttr.doubleUnderlined at_)
  else if body = [52, 58, 51] then (cs, setAttr CTAttr.undercurled at_)
  else if body = [52, 58, 52] then (cs, setAttr CTAttr.underdotted at_)
  else if body = [52, 58, 53] then (cs, setAttr CTAttr.underdashed at_)
  else if body = [53] then (cs, setAttr CTAttr.slowBlink at_)
  else if body = [54] then (cs, setAttr CTAttr.rapidBlink at_)
  else if body = [55] then (cs, setAttr CTAttr.reverse at_)
  else if body = [56] then (cs, setAttr CTAttr.hidden at_)
  else if body = [57] then (cs, setAttr CTAttr.crossedOut at_)
  else if body = [50, 48] then (cs, setAttr CTAttr.fraktur at_)
  else if body = [50, 49] then (cs, setAttr CTAttr.noBold at_)
  else if body = [50, 50] then (cs, setAttr CTAttr.normalIntensity at_)
  else if body = [50, 51] then (cs, setAttr CTAttr.noItalic at_)
  else if body = [50, 52] then (cs, setAttr CTAttr.noUnderline at_)
  else if body = [50, 53] then (cs, setAttr CTAttr.noBlink at_)
  else if body = [50, 55] then (cs, setAttr CTAttr.noReverse at_)
  else if body = [50, 56] then (cs, setAttr CTAttr.noHidden at_)
  else if body = [50, 57] then (cs, setAttr CTAttr.notCrossedOut at_)
  else if body = [53, 49] then (cs, setAttr CTAttr.framed at_)
  else if body = [53, 50] then (cs, setAttr CTAttr.encircled at_)
  else if body = [53, 51] then (cs, setAttr CTAttr.overLined at_)
  else if body = [53, 52] then (cs, setAttr CTAttr.notFramedOrEncircled at_)
  else if body = [53, 53] then (cs, setAttr CTAttr.notOverLined at_)
  else if body = [51, 48] then (cs.setFg SColor.black, at_)
  else if body = [51, 49] then (cs.setFg SColor.darkRed, at_)
  else if body = [51, 50] then (cs.setFg SColor.darkGreen, at_)
  else if body = [51, 51] then (cs.setFg SColor.darkYellow, at_)
  else if body = [51, 52] then (cs.setFg SColor.darkBlue, at_)
  else if body = [51, 53] then (cs.setFg SColor.darkMagenta, at_)
  else if body = [51, 54] then (cs.setFg SColor.darkCyan, at_)
  else if body = [51, 55] then (cs.setFg SColor.grey, at_)
  else if body = [52, 48] then (cs.setBg SColor.black, at_)
  else if body = [52, 49] then (cs.setBg SColor.darkRed, at_)
  else if body = [52, 50] then (cs.setBg SColor.darkGreen, at_)
  else if body = [52, 51] then (cs.setBg SColor.darkYellow, at_)
  else if body = [52, 52] then (cs.setBg SColor.darkBlue, at_)
  else if body = [52, 53] then (cs.setBg SColor.darkMagenta, at_)
  else if body = [52, 54] then (cs.setBg SColor.darkCyan, at_)
  else if body = [52, 55] then (cs.setBg SColor.grey, at_)
  else if body = [57, 48] then (cs.setFg SColor.darkGrey, at_)
  else if body = [57, 49] then (cs.setFg SColor.red, at_)
  else if body = [57, 50] then (cs.setFg SColor.green, at_)
  else if body = [57, 51] then (cs.setFg SColor.yellow, at_)
  else if body = [57, 52] then (cs.setFg SColor.blue, at_)
  else if body = [57, 53] then (cs.setFg SColor.magenta, at_)
  else if body = [57, 54] then (cs.setFg SColor.cyan, at_)
  else if body = [57, 55] then (cs.setFg SColor.white, at_)
  else if body = [49, 48, 48] then (cs.setBg SColor.darkGrey, at_)
  else if body = [49, 48, 49] then (cs.setBg SColor.red, at_)
  else if body = [49, 48, 50] then (cs.setBg SColor.green, at_)
  else if body = [49, 48, 51] then (cs.setBg SColor.yellow, at_)
  else if body = [49, 48, 52] then (cs.setBg SColor.blue, at_)
  else if body = [49, 48, 53] then (cs.setBg SColor.magenta, at_)
  else if body = [49, 48, 54] then (cs.setBg SColor.cyan, at_)
  else if body = [49, 48, 55] then (cs.setBg SColor.white, at_)
  else if body = [51, 57] then (cs.setFg SColor.reset, at_)
  else if body = [52, 57] then (cs.setBg SColor.reset, at_)
  else (cs, at_)

/-- The `while let Some(part) = parts_iter.next()` loop of `process_colors`,
carrying the body (for slicing extended forms), the running byte index, and
the color/attribute state.  Out-of-range slices are panics (`none`). -/
def processColorsGo (cfg : Config) (body : List Nat) :
    List (List Nat) → Nat → ColorState → Attrs → Option (ColorState × Attrs)
  | [], _, cs, at_ => some (cs, at_)
  | part :: rest, idx, cs, at_ =>
      if part = [51, 56] ∨ part = [52, 56] then
        match rest with
        | p :: rest2 =>
            if p = [53] then
              match rest2 with
              | [] => some (cs, at_)
              | color :: rest3 =>
                  let plen := part.length + 1 + p.length + 1 + color.length
                  if idx + plen ≤ body.length then
                    processColorsGo cfg body rest3
                      (idx + (plen - part.length) + (part.length + 1))
                      (cs.setColors ((body.drop idx).take plen)) at_
                  else none
            else if p = [50] then
              match rest2 with
              | r :: g :: bb :: rest3 =>
                  let plen := part.length + 1 + p.length + 1 + r.length + 1 +
                    g.length + 1 + bb.length
                  if idx + plen ≤ body.length then
                    processColorsGo cfg body rest3
                      (idx + (plen - part.length) + (part.length + 1))
                      (cs.setColors ((body.drop idx).take plen)) at_
                  else none
              | _ => some (cs, at_)
            else
              processColorsGo cfg body (p :: rest2) (idx + part.length + 1) cs at_
        | [] => some (cs, at_)
      else
        let h := handleColorsAndAttrs cfg part cs at_
        processColorsGo cfg body rest (idx + part.length + 1) h.1 h.2

/-- `process_colors(seq, color_state, attrs)`: split the body between
`ESC [` and the final `m` on `;` and process the parameters left to right.
The body slice `&seq[2 .. len − 1]` panics (`none`) when the sequence is
shorter than 3 bytes. -/
def processColors (cfg : Config) (seq : List Nat) (cs : ColorState) (at_ : Attrs) :
    Option (ColorState × Attrs) :=
  if 3 ≤ seq.length then
    let body := (seq.drop 2).take (seq.length - 3)
    processColorsGo cfg body (splitSep body) 0 cs at_
  else none

/-! ## Serial actor (`serial_actor/mod.rs`) -/

/-- `SerialMessage`. -/
inductive SerialMessage where
  | write (data : List Nat)
  | sendBreak
  | shutdown
  deriving DecidableEq, Repr

/-- `SerialEvent`. -/
inductive SerialEvent where
  | data (bytes : List Nat)
  | error (msg : String)
  | connectionClosed
  deriving DecidableEq, Repr

/-- One resolved iteration of the actor's `select!` loop: either a value
from the command channel (with the outcome of any port write embedded, the
write being external I/O), the command channel closing, or the outcome of a
port read. -/
inductive ActorStep where
  | cmdWrite (data : List Nat) (writeErr : Option String)
  | cmdSendBreak
  | cmdShutdown
  | cmdClosed
  | readOk (bytes : List Nat)
  | readErr (msg : String)
  deriving DecidableEq, Repr

/-- `SerialActor::run`: the events broadcast for a sequence of resolved
`select!` outcomes; the list of emitted events ends where the loop
`break`s (later steps are never processed). -/
def runActor : List ActorStep → List SerialEvent
  | [] => []
  | ActorStep.cmdWrite _ we :: rest =>
      (match we with
        | some e => [SerialEvent.error e]
        | none => []) ++ runActor rest
  | ActorStep.cmdSendBreak :: rest => runActor rest
  | ActorStep.cmdShutdown :: rest => SerialEvent.connectionClosed :: runActor rest
  | ActorStep.cmdClosed :: _ => []
  | ActorStep.readOk bytes :: rest =>
      if bytes.length = 0 then [SerialEvent.connectionClosed]
      else SerialEvent.data bytes :: runActor rest
  | ActorStep.readErr e :: _ => [SerialEvent.error e]

/-! ## File-output forwarder (`serial_actor/tasks.rs::run_file_output`) -/

/-- One resolved iteration of the forwarder's `select!` loop: a broadcast
event, a lag notification, the broadcast closing, or the 200 ms batch-timer
tick. -/
inductive FwdInput where
  | ev (e : SerialEvent)
  | lagged (skipped : Nat)
  | chanClosed
  | tick
  deriving DecidableEq, Repr

/-- An item sent to the blocking writer thread.  `errLine`/`closedLine`
stand for the formatted `[ERROR …]` / `[CLOSED …]` lines (their embedded
wall-clock timestamps are abstracted). -/
inductive FileOut where
  | chunk (bytes : List Nat)
  | errLine (msg : String)
  | closedLine
  deriving DecidableEq, Repr

/-- The forwarder loop of `run_file_output`: accumulate `Data` payloads,
flush at 4096 bytes or on a timer tick; on `Error` flush then send the
error line; on `ConnectionClosed` flush, send the close line and exit
(dropping all later inputs); after any other `break` flush what is
pending. -/
def runFileFwd : List FwdInput → List Nat → List FileOut
  | [], _ => []
  | FwdInput.ev (SerialEvent.data d) :: rest, buf =>
      let b2 := buf ++ d
      if 4096 ≤ b2.length then FileOut.chunk b2 :: runFileFwd rest []
      else runFileFwd rest b2
  | FwdInput.ev (SerialEvent.error e) :: rest, buf =>
      (if buf ≠ [] then [FileOut.chunk buf] else []) ++
        FileOut.errLine e :: runFileFwd rest []
  | FwdInput.ev SerialEvent.connectionClosed :: _, buf =>
      (if buf ≠ [] then [FileOut.chunk buf] else []) ++ [FileOut.closedLine]
  | FwdInput.lagged _ :: rest, buf => runFileFwd rest buf
  | FwdInput.chanClosed :: _, buf =>
      if buf ≠ [] then [FileOut.chunk buf] else []
  | FwdInput.tick :: rest, buf =>
      if buf ≠ [] then FileOut.chunk buf :: runFileFwd rest []
      else runFileFwd rest buf

end Sericom

namespace Sericom

/-! ## Shared concrete instances used by concrete-input theorems -/

/-- A concrete configuration (the default `fg = green`, `bg = reset`). -/
def cfg0 : Config := ⟨SColor.green, SColor.reset⟩

/-- A concrete 80×24 buffer whose scrollback already holds 30 lines. -/
def bC4 : ScreenBuffer :=
  { ScreenBuffer.new cfg0 80 24 with lines := List.replicate 30 (newDefaultLine cfg0 80) }

/-! ## C10 -/

/-- C10: `scroll_to_top` and `scroll_to_bottom` modify only `view_start` and
the dirty flag: lines (and hence every cell's `is_selected` flag), cursor,
both selection anchors and the remaining state are unchanged — while
`scroll_up` and `scroll_down` clear the selection anchors. -/
theorem c10_scroll_frame (b : ScreenBuffer) (n : Nat) :
    (scrollToTop b).lines = b.lines ∧ (scrollToTop b).cursor = b.cursor ∧
    (scrollToTop b).selectionStart = b.selectionStart ∧
    (scrollToTop b).selectionEnd = b.selectionEnd ∧
    (scrollToTop b).width = b.width ∧ (scrollToTop b).height = b.height ∧
    (scrollToTop b).maxScrollback = b.maxScrollback ∧
    (scrollToTop b).escState = b.escState ∧ (scrollToTop b).escSeq = b.escSeq ∧
    (scrollToBottom b).lines = b.lines ∧ (scrollToBottom b).cursor = b.cursor ∧
    (scrollToBottom b).selectionStart = b.selectionStart ∧
    (scrollToBottom b).selectionEnd = b.selectionEnd ∧
    (scrollToBottom b).width = b.width ∧ (scrollToBottom b).height = b.height ∧
    (scrollToBottom b).maxScrollback = b.maxScrollback ∧
    (scrollToBottom b).escState = b.escState ∧ (scrollToBottom b).escSeq = b.escSeq ∧
    (scrollUp b n).selectionStart = none ∧ (scrollUp b n).selectionEnd = none ∧
    (scrollDown b n).selectionStart = none ∧ (scrollDown b n).selectionEnd = none := by
  refine ⟨rfl, rfl, rfl, rfl, rfl, rfl, rfl, rfl, rfl, rfl, rfl, rfl, rfl, rfl, rfl,
    rfl, rfl, rfl, ?_, ?_, ?_, ?_⟩ <;> simp [scrollUp, scrollDown, clearSelection]

/-! ## C6 -/

theorem normSel_comm (a b : Nat × Nat) : normSel a b = normSel b a := by
  obtain ⟨x1, l1⟩ := a
  obtain ⟨x2, l2⟩ := b
  simp only [normSel]
  by_cases h1 : l1 < l2 ∨ (l1 = l2 ∧ x1 ≤ x2) <;>
    by_cases h2 : l2 < l1 ∨ (l2 = l1 ∧ x2 ≤ x1) <;>
      simp only [h1, h2, if_pos, if_neg, if_true, if_false, ite_true, ite_false]
  · have hl : l1 = l2 := by omega
    have hx : x1 = x2 := by omega
    subst hl; subst hx; rfl
  · omega

/-- C6: `get_selected_text` returns the same string for selections `(a, b)`
and `(b, a)`: the normalization step orders the anchors the same way. -/
theorem c6_selection_symmetric (b : ScreenBuffer) (a1 a2 : Nat × Nat) :
    getSelectedText { b with selectionStart := some a1, selectionEnd := some a2 } =
      getSelectedText { b with selectionStart := some a2, selectionEnd := some a1 } := by
  simp only [getSelectedText]
  rw [normSel_comm]

/-! ## C7 -/

/-- C7: processing `ESC [ 0 m` with `process_colors` resets the color state
to the configured defaults and the attributes to the empty set, regardless
of the prior state (`[27, 91, 48, 109]` is `ESC [ 0 m`). -/
theorem c7_sgr_reset (cfg : Config) (cs : ColorState) (at_ : Attrs) :
    processColors cfg [27, 91, 48, 109] cs at_ =
      some (ColorState.default cfg, noAttrs) := by
  rfl

/-! ## C3 -/

/-- C3 counterexample: after `Shutdown` the actor publishes
`ConnectionClosed` but does NOT exit — a later port read is still processed
and its `Data` event published, so the run loop did not stop at `Shutdown`. -/
theorem c3_shutdown_cex :
    runActor [ActorStep.cmdShutdown, ActorStep.readOk [65]] =
        [SerialEvent.connectionClosed, SerialEvent.data [65]] ∧
      runActor [ActorStep.cmdShutdown, ActorStep.readOk [65]] ≠
        [SerialEvent.connectionClosed] := by
  constructor <;> decide

/-- C3 amended: receiving `Shutdown` publishes `ConnectionClosed` and the
loop continues with the remaining steps; the loop exits only when the
command channel closes, a read returns 0 bytes, or a read errors. -/
theorem c3_shutdown_amended (rest : List ActorStep) (e : String) :
    runActor (ActorStep.cmdShutdown :: rest) =
        SerialEvent.connectionClosed :: runActor rest ∧
      runActor (ActorStep.cmdClosed :: rest) = [] ∧
      runActor (ActorStep.readOk [] :: rest) = [SerialEvent.connectionClosed] ∧
      runActor (ActorStep.readErr e :: rest) = [SerialEvent.error e] :=
  ⟨rfl, rfl, rfl, rfl⟩

/-! ## C8 -/

/-- C8: in the file-output forwarder, an `Error` received with a non-empty
pending buffer sends the buffered bytes before the formatted error line and
continues; a `ConnectionClosed` flushes the pending bytes, sends the
formatted close line, and exits the loop (all later inputs are dropped). -/
theorem c8_file_flush_order (rest : List FwdInput) (buf : List Nat) (e : String)
    (hbuf : buf ≠ []) :
    runFileFwd (FwdInput.ev (SerialEvent.error e) :: rest) buf =
        FileOut.chunk buf :: FileOut.errLine e :: runFileFwd rest [] ∧
      runFileFwd (FwdInput.ev SerialEvent.connectionClosed :: rest) buf =
        [FileOut.chunk buf, FileOut.closedLine] := by
  constructor <;> simp [runFileFwd, hbuf]

/-- Witness for C8 at a concrete buffer, error message and remaining input. -/
theorem c8_file_flush_order_witness :
    runFileFwd [FwdInput.ev (SerialEvent.error ("boom")), FwdInput.tick] [49] =
        [FileOut.chunk [49], FileOut.errLine ("boom")] ∧
      runFileFwd [FwdInput.ev SerialEvent.connectionClosed, FwdInput.tick] [49] =
        [FileOut.chunk [49], FileOut.closedLine] := by
  have h := c8_file_flush_order [FwdInput.tick] [49] ("boom") (by decide)
  refine ⟨?_, h.2⟩
  rw [h.1]
  simp [runFileFwd]

end Sericom

namespace Sericom

/-! ## C2 and C9: concrete failing inputs -/

theorem growTo_length (cfg : Config) (w t : Nat) (lines : List SLine) :
    (growTo cfg w t lines).length = max lines.length t := by
  simp [growTo]
  omega

/-- C2 (code bug): from a fresh 80×24 buffer, `add_data(b"\x1b[10001B")`
drives `cursor.y` down by 10001; `move_cursor_down` grows the scrollback to
10001 lines with no trimming, so `lines.len()` exceeds `MAX_SCROLLBACK`,
contrary to the claim and to the module documentation's 10000-line cap. -/
theorem c2_scrollback_overflow :
    ((addData cfg0 (ScreenBuffer.new cfg0 80 24) [27, 91, 49, 48, 48, 48, 49, 66]).map
        fun b => b.lines.length) = some 10001 ∧ MAX_SCROLLBACK < 10001 := by
  constructor
  · simp only [addData, ScreenBuffer.new, EscSeqSt.init]
    simp [processChars, parseSequence, parseU16, digitsToNat, pushNum, pushAction,
      insertSeparator, EscSeqSt.pushPart, moveCursorDown, scrollToBottom,
      isAsciiDigit, isAsciiAlphaByte, growTo_length]
  · decide

/-- C9 (code bug): `add_data(b"\x1b[99999A")` collects the digit string
`"99999"`, whose `parse::<u16>()` fails (99999 > 65535), so the `unwrap()`
in `parse_sequence` panics — `add_data` does not return normally. -/
theorem c9_parse_unwrap_panic :
    addData cfg0 (ScreenBuffer.new cfg0 80 24) [27, 91, 57, 57, 57, 57, 57, 65] = none := by
  simp [addData, processChars, parseSequence, parseU16, digitsToNat, pushNum, pushAction,
    insertSeparator, EscSeqSt.pushPart, ScreenBuffer.new, EscSeqSt.init,
    isAsciiDigit, isAsciiAlphaByte]

/-! ## C5 counterexample -/

/-- C5 counterexample: from a fresh 80×24 buffer, `add_data(b"\x1b[200C")`
(cursor right by 200) leaves `cursor.x = 200 ≥ W = 80`: the cursor-bounds
invariant `cursor.x ∈ [0, W)` does not survive CSI cursor movement. -/
theorem c5_cursor_bounds_cex :
    ((addData cfg0 (ScreenBuffer.new cfg0 80 24) [27, 91, 50, 48, 48, 67]).map
        fun b => (b.cursor.x, b.width)) = some (200, 80) ∧ ¬ (200 < 80) := by
  constructor
  · simp [addData, processChars, parseSequence, parseU16, digitsToNat, pushNum, pushAction,
      insertSeparator, EscSeqSt.pushPart, ScreenBuffer.new, EscSeqSt.init,
      moveCursorRight, scrollToBottom, isAsciiDigit, isAsciiAlphaByte]
  · decide

/-! ## C4 counterexample -/

/-- C4 counterexample: on an 80×24 buffer holding 30 lines (`view_start = 0`
before the call, `6` after the auto-scroll), `ESC [ 2 ; 5 H` sets the cursor
to `x = 5, y = 8`.  The claim demands `x = col − 1 = 4` and
`y = view_start + row − 1` (which is 1 for the pre-call view or 7 for the
post-call view) — neither holds: the code uses `col` unshifted and
`row + (lines.len() − height)` for `row ≥ 2`. -/
theorem c4_cursor_home_cex :
    ((addData cfg0 bC4 [27, 91, 50, 59, 53, 72]).map
        fun b => (b.cursor.x, b.cursor.y, b.viewStart)) = some (5, 8, 6) ∧
      ¬ (5 = 5 - 1 ∧ 8 = 0 + 2 - 1) ∧ ¬ (5 = 5 - 1 ∧ 8 = 6 + 2 - 1) := by
  refine ⟨?_, by decide, by decide⟩
  simp [addData, processChars, parseSequence, parseU16, digitsToNat, pushNum, pushAction,
    insertSeparator, EscSeqSt.pushPart, bC4, ScreenBuffer.new, EscSeqSt.init,
    ScreenBuffer.setCursorPos, checkedSub, checkedAddU16, scrollToBottom,
    isAsciiDigit, isAsciiAlphaByte]

end Sericom

namespace Sericom

/-! ## C1: parser payload conservation and chunking independence -/

theorem payloads_append (e1 e2 : List ParserEvent) :
    payloads (e1 ++ e2) = payloads e1 ++ payloads e2 := by
  simp [payloads]

theorem asciiFilter_nil : asciiFilter [] = [] := rfl

theorem asciiFilter_cons (b : Nat) (rest : List Nat) :
    asciiFilter (b :: rest) = (if b < 128 then [b] else []) ++ asciiFilter rest := by
  by_cases h : b < 128 <;> simp [asciiFilter, List.filter_cons, isAsciiByte, h]

theorem stepByte_conserve (p : ByteParser) (b : Nat) :
    payloads (p.stepByte b).1 ++ (p.stepByte b).2.buffer =
      p.buffer ++ asciiFilter [b] := by
  obtain ⟨st, buf⟩ := p
  rw [asciiFilter_cons, asciiFilter_nil]
  cases st <;>
    simp only [ByteParser.stepByte] <;>
    split_ifs <;>
    simp_all [payloads, ParserEvent.payload, isAsciiByte]

theorem feedCore_conserve (d : List Nat) (p : ByteParser) :
    payloads (p.feedCore d).1 ++ (p.feedCore d).2.buffer =
      p.buffer ++ asciiFilter d := by
  induction d generalizing p with
  | nil => simp [ByteParser.feedCore, payloads, asciiFilter_nil]
  | cons b rest ih =>
      have h1 := stepByte_conserve p b
      have h2 := ih (p.stepByte b).2
      simp only [ByteParser.feedCore, payloads_append, List.append_assoc]
      rw [h2, ← List.append_assoc, h1, asciiFilter_cons, asciiFilter_nil]
      simp [asciiFilter_cons]

theorem feed_conserve (d : List Nat) (p : ByteParser) :
    payloads (p.feed d).1 ++ (p.feed d).2.buffer = p.buffer ++ asciiFilter d := by
  have h := feedCore_conserve d p
  simp only [ByteParser.feed, ByteParser.flushEnd]
  split_ifs with hc
  · simp only [payloads_append, List.append_assoc]
    simpa [payloads, ParserEvent.payload] using h
  · simpa [payloads] using h

theorem feedChunks_conserve (chunks : List (List Nat)) (p : ByteParser) :
    payloads (p.feedChunks chunks).1 ++ (p.feedChunks chunks).2.buffer =
      p.buffer ++ asciiFilter chunks.flatten := by
  induction chunks generalizing p with
  | nil => simp [ByteParser.feedChunks, payloads, asciiFilter_nil]
  | cons c cs ih =>
      have h1 := feed_conserve c p
      have h2 := ih (p.feed c).2
      simp only [ByteParser.feedChunks, payloads_append, List.append_assoc,
        List.flatten_cons]
      rw [h2, ← List.append_assoc, h1]
      simp [asciiFilter]

/-- The parser component of the trailing flush. -/
def flushP (p : ByteParser) : ByteParser := p.flushEnd.2

theorem feedCore_append (a b' : List Nat) (p : ByteParser) :
    p.feedCore (a ++ b') =
      ((p.feedCore a).1 ++ ((p.feedCore a).2.feedCore b').1,
        ((p.feedCore a).2.feedCore b').2) := by
  induction a generalizing p with
  | nil => simp [ByteParser.feedCore]
  | cons x a' ih => simp [ByteParser.feedCore, ih, List.append_assoc]

theorem feedCore_textPending (d : List Nat) : ∀ t buf : List Nat,
    flushP ((ByteParser.mk ParseState.normal (t ++ buf)).feedCore d).2 =
      flushP ((ByteParser.mk ParseState.normal buf).feedCore d).2 := by
  induction d with
  | nil =>
      intro t buf
      simp only [ByteParser.feedCore, flushP, ByteParser.flushEnd]
      split_ifs with h1 h2 <;> simp_all
  | cons b rest ih =>
      intro t buf
      simp only [ByteParser.feedCore]
      by_cases hb : b < 128
      · by_cases h27 : b = 27
        · subst h27
          simp [ByteParser.stepByte, isAsciiByte]
        · by_cases hctl : b ≤ 31 ∨ b = 127
          · simp [ByteParser.stepByte, isAsciiByte, hb, h27, hctl]
          · have := ih t (buf ++ [b])
            simp only [ByteParser.stepByte, isAsciiByte, hb, h27, hctl] at *
            simpa [List.append_assoc] using this
      · have := ih t buf
        simp only [ByteParser.stepByte, isAsciiByte] at *
        simpa [hb] using this

theorem feed_parser_assoc (p : ByteParser) (a b' : List Nat) :
    ((p.feed a).2.feed b').2 = (p.feed (a ++ b')).2 := by
  show flushP (((flushP (p.feedCore a).2)).feedCore b').2 =
    flushP ((p.feedCore (a ++ b')).2)
  rw [feedCore_append]
  obtain ⟨st, buf⟩ := (p.feedCore a).2
  cases st with
  | normal =>
      have hf : flushP ⟨ParseState.normal, buf⟩ = ⟨ParseState.normal, []⟩ := by
        simp [flushP, ByteParser.flushEnd]
        split_ifs <;> simp_all
      rw [hf]
      have := feedCore_textPending b' buf []
      simpa using this.symm
  | esc => rfl
  | csi => rfl

theorem feedChunks_parser_cons (cs : List (List Nat)) : ∀ (p : ByteParser) (c : List Nat),
    (p.feedChunks (c :: cs)).2 = (p.feed (c ++ cs.flatten)).2 := by
  induction cs with
  | nil =>
      intro p c
      simp [ByteParser.feedChunks]
  | cons c2 cs2 ih =>
      intro p c
      show ((p.feed c).2.feedChunks (c2 :: cs2)).2 = _
      rw [ih, feed_parser_assoc]
      simp [List.append_assoc]

/-- C1 counterexample: feeding the single byte `ESC` (which is ASCII), the
parser retains it as a pending escape sequence and emits no event, so the
concatenated payloads are empty while the ASCII subsequence is `[0x1B]` —
the claimed equality fails as stated. -/
theorem c1_parser_completeness_cex :
    payloads (ByteParser.new.feedChunks [[27]]).1 = [] ∧
      asciiFilter (List.flatten [[27]]) = [27] ∧ ([] : List Nat) ≠ [27] :=
  ⟨rfl, rfl, by decide⟩

/-- C1 amended: for every chunking of a byte stream, the concatenated
payloads of all emitted events followed by the parser's pending buffer
equal the ASCII subsequence of the stream (no ASCII byte lost or
duplicated, order preserved); moreover the concatenated payloads are
independent of the chunking (they equal those of a single whole-stream
`feed`).  The original claim holds exactly when the stream leaves no
pending partial escape sequence. -/
theorem c1_parser_completeness_amended (chunks : List (List Nat)) :
    payloads (ByteParser.new.feedChunks chunks).1 ++
        (ByteParser.new.feedChunks chunks).2.buffer = asciiFilter chunks.flatten ∧
      payloads (ByteParser.new.feedChunks chunks).1 =
        payloads (ByteParser.new.feed chunks.flatten).1 := by
  have h1 := feedChunks_conserve chunks ByteParser.new
  have h2 := feed_conserve chunks.flatten ByteParser.new
  rw [show ByteParser.new.buffer = [] from rfl, List.nil_append] at h1 h2
  refine ⟨h1, ?_⟩
  cases chunks with
  | nil => rfl
  | cons c cs =>
      have hbuf : (ByteParser.new.feedChunks (c :: cs)).2 =
          (ByteParser.new.feed ((c :: cs).flatten)).2 := by
        rw [feedChunks_parser_cons cs ByteParser.new c, List.flatten_cons]
      have heq := h1.trans h2.symm
      rw [hbuf] at heq
      exact List.append_cancel_right heq

end Sericom


namespace Sericom

/-! ## C4 amended: the actual `ESC [ row ; col H` semantics -/

/-- Folding `push_num` over a digit list. -/
def pushNums (ds : List Nat) (s : EscSeqSt) : EscSeqSt :=
  ds.foldl (fun s d => pushNum d s) s

theorem pushNums_numbers (ds : List Nat) : ∀ (xs : List Nat) (seqn : List EscPart),
    pushNums ds ⟨seqn, EscPart.numbers xs⟩ = ⟨seqn, EscPart.numbers (xs ++ ds)⟩ := by
  induction ds with
  | nil => intro xs seqn; simp [pushNums]
  | cons d ds' ih =>
      intro xs seqn
      simp only [pushNums, List.foldl_cons, pushNum]
      have := ih (xs ++ [d]) seqn
      simpa [pushNums] using this

theorem pushNums_from_empty (d : Nat) (ds : List Nat) (seqn : List EscPart) :
    pushNums (d :: ds) ⟨seqn, EscPart.empty⟩ = ⟨seqn, EscPart.numbers (d :: ds)⟩ := by
  simp only [pushNums, List.foldl_cons, pushNum]
  simpa [pushNums] using pushNums_numbers ds [d] seqn

theorem processChars_digits (cfg : Config) (ds : List Nat)
    (h : ∀ d ∈ ds, isAsciiDigit d) :
    ∀ (b : ScreenBuffer) (rest : List Nat), b.escState = EscState.csi →
      processChars cfg b (ds ++ rest) =
        processChars cfg { b with escSeq := pushNums ds b.escSeq } rest := by
  induction ds with
  | nil =>
      intro b rest _
      simp [pushNums]
  | cons d ds' ih =>
      intro b rest hstate
      have hd : isAsciiDigit d := h d (by simp)
      have hd59 : ¬ d = 59 := by
        simp [isAsciiDigit] at hd
        omega
      rw [List.cons_append]
      rw [processChars]
      rw [hstate]
      simp only [hd59, if_false, hd, if_true]
      rw [ih (fun x hx => h x (by simp [hx])) _ rest (by simp [hstate])]
      simp [pushNums]

theorem processChars_digits_cons (cfg : Config) (d : Nat) (ds : List Nat)
    (h : ∀ x ∈ d :: ds, isAsciiDigit x) (b : ScreenBuffer) (rest : List Nat)
    (hstate : b.escState = EscState.csi) :
    processChars cfg b (d :: (ds ++ rest)) =
      processChars cfg { b with escSeq := pushNums (d :: ds) b.escSeq } rest := by
  have := processChars_digits cfg (d :: ds) h b rest hstate
  simpa using this

end Sericom

namespace Sericom

set_option maxHeartbeats 1000000 in
/-- C4 amended: processing `ESC [ row ; col H` in `add_data` (digit strings
for `row` and `col`, `H` = 72) sets `cursor.x = col` (not `col − 1`) and
`cursor.y = (lines.len() mod 2^16 − height) + row` for `row ≥ 2`, while
`row ≤ 1` gives `cursor.y = lines.len() mod 2^16 − height`; this requires
`height ≤ lines.len() mod 2^16` (else the `u16` subtraction panics) and, for
`row ≥ 2`, that the `u16` addition does not overflow. -/
theorem c4_cursor_home_amended (cfg : Config) (b : ScreenBuffer) (rds cds : List Nat)
    (row col : Nat)
    (hstate : b.escState = EscState.normal) (hseq : b.escSeq = EscSeqSt.init)
    (hrd : ∀ d ∈ rds, isAsciiDigit d) (hcd : ∀ d ∈ cds, isAsciiDigit d)
    (hrne : rds ≠ []) (hcne : cds ≠ [])
    (hrv : digitsToNat rds = row) (hcv : digitsToNat cds = col) (hrle : row ≤ 65535)
    (hcle : col ≤ 65535)
    (hlen : b.height ≤ b.lines.length % 65536)
    (hadd : 2 ≤ row → row + (b.lines.length % 65536 - b.height) ≤ 65535) :
    (addData cfg b ([27, 91] ++ rds ++ [59] ++ cds ++ [72])).map
        (fun b' => (b'.cursor.x, b'.cursor.y)) =
      some (col,
        if row ≤ 1 then b.lines.length % 65536 - b.height
        else row + (b.lines.length % 65536 - b.height)) := by
  obtain ⟨rd, rds', rfl⟩ : ∃ x xs, rds = x :: xs := by
    cases rds with
    | nil => exact absurd rfl hrne
    | cons x xs => exact ⟨x, xs, rfl⟩
  obtain ⟨cd, cds', rfl⟩ : ∃ x xs, cds = x :: xs := by
    cases cds with
    | nil => exact absurd rfl hcne
    | cons x xs => exact ⟨x, xs, rfl⟩
  have hl : ([27, 91] ++ (rd :: rds') ++ [59] ++ (cd :: cds') ++ [72] : List Nat)
      = 27 :: 91 :: ((rd :: rds') ++ (59 :: ((cd :: cds') ++ [72]))) := by simp
  rw [hl]
  simp only [addData]
  -- ESC
  rw [processChars, hstate]
  norm_num
  -- '['
  rw [processChars]
  norm_num
  -- row digits
  rw [processChars_digits_cons cfg rd rds' hrd _ _ (by simp)]
  simp only [hseq, EscSeqSt.init]
  rw [pushNums_from_empty]
  -- ';'
  rw [processChars]
  have hsep : insertSeparator ⟨[], EscPart.numbers (rd :: rds')⟩ =
      ⟨[EscPart.numbers (rd :: rds'), EscPart.separator], EscPart.empty⟩ := by
    simp [insertSeparator, EscSeqSt.pushPart]
  norm_num [hsep]
  -- col digits
  rw [processChars_digits_cons cfg cd cds' hcd _ _ (by simp)]
  norm_num
  rw [pushNums_from_empty]
  -- 'H'
  rw [processChars]
  have hact : pushAction 72 ⟨[EscPart.numbers (rd :: rds'), EscPart.separator],
      EscPart.numbers (cd :: cds')⟩ =
      ⟨[EscPart.numbers (rd :: rds'), EscPart.separator, EscPart.numbers (cd :: cds'),
        EscPart.action 72], EscPart.empty⟩ := by
    simp [pushAction, EscSeqSt.pushPart]
  norm_num [isAsciiDigit, isAsciiAlphaByte, hact]
  -- parse_sequence
  have hpr : parseU16 (rd :: rds') = some row := by
    simp [parseU16, hrv, hrle]
  have hpc : parseU16 (cd :: cds') = some col := by
    simp [parseU16, hcv, hcle]
  simp only [parseSequence, hpr, hpc, Option.bind_some, Option.some_bind]
  have hcs : checkedSub (b.lines.length % 65536) b.height =
      some (b.lines.length % 65536 - b.height) := by
    simp [checkedSub, hlen]
  rw [hcs]
  simp only [true_or, if_true, Option.some_bind, Option.bind_some, Option.pure_def]
  by_cases hrow : row ≤ 1
  · simp [hrow, processChars, scrollToBottom, ScreenBuffer.setCursorPos]
  · have h2 : 2 ≤ row := by omega
    have hca : checkedAddU16 row (b.lines.length % 65536 - b.height) =
        some (row + (b.lines.length % 65536 - b.height)) := by
      simp [checkedAddU16, hadd h2]
    simp [hrow, hca, processChars, scrollToBottom, ScreenBuffer.setCursorPos]

/-- Witness for the amended C4 on an 80×24 buffer with 30 scrollback lines
and the sequence `ESC [ 2 ; 5 H`. -/
theorem c4_cursor_home_witness :
    (addData cfg0 bC4 [27, 91, 50, 59, 53, 72]).map
        (fun b' => (b'.cursor.x, b'.cursor.y)) = some (5, 8) := by
  have h := c4_cursor_home_amended cfg0 bC4 [50] [53] 2 5 rfl rfl (by decide)
    (by decide) (by decide) (by decide) (by decide) (by decide) (by decide) (by decide)
    (by decide) (by decide)
  norm_num at h
  simpa using h

end Sericom

namespace Sericom

/-! ## C5: operations and invariants -/

/-- One externally triggered screen-buffer operation: an `add_data` call or
a UI command handled in `run_stdout_output` (the clipboard write of
`CopySelection` is I/O; its state effect is `clear_selection`). -/
inductive SBOp where
  | data (cs : List Nat)
  | uiScrollUp (n : Nat)
  | uiScrollDown (n : Nat)
  | uiScrollTop
  | uiScrollBottom
  | uiStartSelection (x y : Nat)
  | uiUpdateSelection (x y : Nat)
  | uiCopySelection
  | uiClearBuffer
  deriving DecidableEq, Repr

/-- Apply one operation. -/
def applyOp (cfg : Config) (b : ScreenBuffer) : SBOp → Option ScreenBuffer
  | SBOp.data cs => addData cfg b cs
  | SBOp.uiScrollUp n => some (scrollUp b n)
  | SBOp.uiScrollDown n => some (scrollDown b n)
  | SBOp.uiScrollTop => some (scrollToTop b)
  | SBOp.uiScrollBottom => some (scrollToBottom b)
  | SBOp.uiStartSelection x y => some (startSelection b x y)
  | SBOp.uiUpdateSelection x y => some (updateSelection b x y)
  | SBOp.uiCopySelection => some (copySelectionState b)
  | SBOp.uiClearBuffer => some (clearBuffer cfg b)

/-- Run a sequence of operations. -/
def runOps (cfg : Config) (b : ScreenBuffer) : List SBOp → Option ScreenBuffer
  | [] => some b
  | op :: ops =>
      match applyOp cfg b op with
      | none => none
      | some b' => runOps cfg b' ops

/-- The operation feeds no ESC byte to `add_data`. -/
def escFreeOp : SBOp → Prop
  | SBOp.data cs => 27 ∉ cs
  | _ => True

/-- Structural part of the cursor-bounds invariant: positive width, cursor
line inside the scrollback, all lines exactly `width` cells, positive
scrollback capacity. -/
def BufInv (b : ScreenBuffer) : Prop :=
  1 ≤ b.width ∧ b.cursor.y < b.lines.length ∧
    (∀ l ∈ b.lines, l.length = b.width) ∧ 1 ≤ b.maxScrollback

/-- Full invariant maintained by ESC-free ingestion. -/
def CInv (b : ScreenBuffer) : Prop :=
  BufInv b ∧ b.cursor.x < b.width ∧ b.escState = EscState.normal

theorem trimLoop_inv (maxSb : Nat) (hmax : 1 ≤ maxSb) :
    ∀ (lines : List SLine) (y vs : Nat), y < lines.length →
      (trimLoop maxSb lines y vs).2.1 < (trimLoop maxSb lines y vs).1.length ∧
        ∀ l ∈ (trimLoop maxSb lines y vs).1, l ∈ lines := by
  intro lines
  induction lines with
  | nil => intro y vs h; simp at h
  | cons a rest ih =>
      intro y vs hy
      rw [trimLoop]
      split_ifs with hlen
      · have h1 : y - 1 < rest.length := by
          simp only [List.length_cons] at hy
          omega
        have h2 := ih (y - 1) (vs - 1) h1
        exact ⟨h2.1, fun l hl => List.mem_cons_of_mem a (h2.2 l hl)⟩
      · exact ⟨hy, fun l hl => hl⟩

theorem newLine_inv (cfg : Config) (b : ScreenBuffer) (h : BufInv b) :
    BufInv (ScreenBuffer.newLine cfg b) ∧ (ScreenBuffer.newLine cfg b).cursor.x = 0 ∧
      (ScreenBuffer.newLine cfg b).width = b.width ∧
      (ScreenBuffer.newLine cfg b).escState = b.escState := by
  obtain ⟨hw, hy, hlw, hms⟩ := h
  have hpre : b.cursor.y + 1 <
      (if b.cursor.y + 1 ≥ b.lines.length then
        b.lines ++ [newDefaultLine cfg b.width] else b.lines).length := by
    split_ifs with hc
    · simp only [List.length_append, List.length_cons, List.length_nil]
      omega
    · omega
  have hlw1 : ∀ l ∈ (if b.cursor.y + 1 ≥ b.lines.length then
      b.lines ++ [newDefaultLine cfg b.width] else b.lines), l.length = b.width := by
    split_ifs with hc
    · intro l hl
      rcases List.mem_append.mp hl with h' | h'
      · exact hlw l h'
      · simp at h'
        subst h'
        simp [newDefaultLine]
    · exact hlw
  have ht := trimLoop_inv b.maxScrollback hms _ (b.cursor.y + 1) b.viewStart hpre
  refine ⟨⟨hw, ?_, ?_, hms⟩, rfl, rfl, rfl⟩
  · exact ht.1
  · intro l hl
    exact hlw1 l (ht.2 l hl)


theorem lines_set_inv (b : ScreenBuffer) (l' : SLine) (i : Nat)
    (hlw : ∀ l ∈ b.lines, l.length = b.width) (hl' : l'.length = b.width) :
    ∀ l ∈ b.lines.set i l', l.length = b.width := by
  intro l hl
  rcases List.mem_or_eq_of_mem_set hl with h | h
  · exact hlw l h
  · subst h; exact hl'

theorem setCharAtCursor_inv (cfg : Config) (ch : Nat) (b : ScreenBuffer)
    (h : BufInv b) :
    BufInv (setCharAtCursor cfg ch b) ∧
      (setCharAtCursor cfg ch b).cursor = b.cursor ∧
      (setCharAtCursor cfg ch b).width = b.width ∧
      (setCharAtCursor cfg ch b).escState = b.escState := by
  obtain ⟨hw, hy, hlw, hms⟩ := h
  have hg : growTo cfg b.width (b.cursor.y + 1) b.lines = b.lines := by
    have : b.cursor.y + 1 - b.lines.length = 0 := by omega
    simp [growTo, this]
  unfold setCharAtCursor
  rw [hg]
  rcases hget : b.lines.get? b.cursor.y with _ | l
  · simp only [hget]
    exact ⟨⟨hw, hy, hlw, hms⟩, by trivial, by trivial, by trivial⟩
  · simp only [hget]
    have hlen : l.length = b.width := hlw l (List.get?_mem hget)
    split_ifs with hx
    · refine ⟨⟨hw, ?_, ?_, hms⟩, by trivial, by trivial, by trivial⟩
      · simpa using hy
      · refine lines_set_inv b _ _ hlw ?_
        rcases hc : (lineSetChar l b.cursor.x ch) with _ | l2
        · simpa [hc] using hlen
        · have : l2.length = l.length := by
            unfold lineSetChar at hc
            rcases hcell : l.get? b.cursor.x with _ | cell
            · rw [hcell] at hc; cases hc
            · rw [hcell] at hc
              cases hc
              simp
          simp [hc, this, hlen]
    · exact ⟨⟨hw, hy, hlw, hms⟩, by trivial, by trivial, by trivial⟩

theorem writeChars_inv (cfg : Config) : ∀ (batch : List Nat) (b : ScreenBuffer),
    BufInv b → b.cursor.x < b.width →
      ∃ b', writeChars cfg b batch = some b' ∧ BufInv b' ∧
        b'.cursor.x < b'.width ∧ b'.width = b.width ∧ b'.escState = b.escState := by
  intro batch
  induction batch with
  | nil =>
      intro b h hx
      exact ⟨b, rfl, h, hx, rfl, rfl⟩
  | cons ch rest ih =>
      intro b h hx
      obtain ⟨hw, hy, hlw, hms⟩ := h
      obtain ⟨l, hl⟩ : ∃ l, b.lines.get? b.cursor.y = some l :=
        ⟨_, List.get?_eq_get hy⟩
      have hlen : l.length = b.width := hlw l (List.get?_mem hl)
      obtain ⟨cell, hcell⟩ : ∃ c, l.get? b.cursor.x = some c :=
        ⟨_, List.get?_eq_get (by omega)⟩
      have hset : lineSetChar l b.cursor.x ch =
          some (l.set b.cursor.x { cell with character := ch }) := by
        unfold lineSetChar
        rw [hcell]
      rw [writeChars]
      simp only [hl, hset]
      set b1 : ScreenBuffer :=
        { b with lines := b.lines.set b.cursor.y (l.set b.cursor.x { cell with character := ch }),
                 cursor := ⟨b.cursor.x + 1, b.cursor.y⟩ } with hb1
      have hinv1 : BufInv b1 := by
        refine ⟨hw, by simpa [hb1] using hy, ?_, hms⟩
        refine lines_set_inv b _ _ hlw ?_
        simp [hlen]
      split_ifs with hxw
      · have hn := newLine_inv cfg b1 hinv1
        refine ⟨_, rfl, hn.1, ?_, ?_, ?_⟩
        · rw [hn.2.1, hn.2.2.1]
          simpa [hb1] using hw
        · exact hn.2.2.1
        · exact hn.2.2.2
      · have hx1 : b1.cursor.x < b1.width := by
          simp only [hb1] at hxw ⊢
          omega
        obtain ⟨b', hrun, hinv', hx', hww, hes⟩ := ih b1 hinv1 hx1
        exact ⟨b', hrun, hinv', hx', hww, hes⟩

theorem addCharBatch_inv (cfg : Config) (batch : List Nat) (b : ScreenBuffer)
    (h : BufInv b) (hx : b.cursor.x < b.width) :
    ∃ b', addCharBatch cfg batch b = some b' ∧ BufInv b' ∧
      b'.cursor.x < b'.width ∧ b'.escState = b.escState := by
  obtain ⟨hw, hy, hlw, hms⟩ := h
  have hg : growTo cfg b.width (b.cursor.y + 1) b.lines = b.lines := by
    have : b.cursor.y + 1 - b.lines.length = 0 := by omega
    simp [growTo, this]
  unfold addCharBatch
  rw [hg]
  have hb : ({ b with lines := b.lines } : ScreenBuffer) = b := rfl
  rw [hb]
  obtain ⟨b', hrun, hinv', hx', _, hes⟩ := writeChars_inv cfg batch b ⟨hw, hy, hlw, hms⟩ hx
  exact ⟨b', hrun, hinv', hx', hes⟩

theorem collectBatch_snd_subset (x w : Nat) : ∀ (l acc : List Nat),
    ∀ a ∈ (collectBatch x w acc l).2, a ∈ l := by
  intro l
  induction l with
  | nil =>
      intro acc a ha
      rw [collectBatch] at ha
      simp at ha
  | cons n rest ih =>
      intro acc a ha
      rw [collectBatch] at ha
      split_ifs at ha with hc
      · exact ha
      · exact List.mem_cons_of_mem n (ih (acc ++ [n]) a ha)


theorem processChars_inv (cfg : Config) : ∀ (n : Nat) (cs : List Nat) (b : ScreenBuffer),
    cs.length ≤ n → 27 ∉ cs → CInv b →
      ∃ b', processChars cfg b cs = some b' ∧ CInv b' := by
  intro n
  induction n with
  | zero =>
      intro cs b hlen _ hinv
      have hnil : cs = [] := List.eq_nil_of_length_eq_zero (Nat.le_zero.mp hlen)
      subst hnil
      exact ⟨b, by rw [processChars], hinv⟩
  | succ n ih =>
      intro cs b hlen hesc hinv
      obtain ⟨hbi, hx, hstate⟩ := hinv
      obtain ⟨hw, hy, hlw, hms⟩ := hbi
      cases cs with
      | nil => exact ⟨b, by rw [processChars], ⟨⟨hw, hy, hlw, hms⟩, hx, hstate⟩⟩
      | cons c rest =>
          have hc27 : ¬ c = 27 := fun h => hesc (by simp [h])
          have hrest : 27 ∉ rest := fun h => hesc (List.mem_cons_of_mem c h)
          have hrlen : rest.length ≤ n := by
            simpa using hlen
          rw [processChars, hstate]
          dsimp only
          split_ifs with h13 hh10 h10 hctl h8 hdel
          -- CR followed by LF
          · have hb0 : BufInv
                ({b with cursor := ⟨0, b.cursor.y⟩, escState := EscState.normal} :
                  ScreenBuffer) := ⟨hw, hy, hlw, hms⟩
            have hn := newLine_inv cfg _ hb0
            refine ih rest.tail _ ?_ ?_ ⟨hn.1, ?_, ?_⟩
            · have := List.length_tail rest
              omega
            · intro hmem
              exact hrest (List.mem_of_mem_tail hmem)
            · rw [hn.2.1, hn.2.2.1]
              exact hw
            · rw [hn.2.2.2]
          -- lone CR
          · exact ih rest _ hrlen hrest ⟨⟨hw, hy, hlw, hms⟩, hw, rfl⟩
          -- LF
          · have hn := newLine_inv cfg b ⟨hw, hy, hlw, hms⟩
            refine ih rest _ hrlen hrest ⟨hn.1, ?_, ?_⟩
            · rw [hn.2.1, hn.2.2.1]
              exact hw
            · rw [hn.2.2.2]
              exact hstate
          -- ignored control bytes
          · exact ih rest _ hrlen hrest ⟨⟨hw, hy, hlw, hms⟩, hx, hstate⟩
          -- BS with the deletion pattern
          · have hbl : BufInv (moveCursorLeft b 1) := ⟨hw, hy, hlw, hms⟩
            have hs := setCharAtCursor_inv cfg 32 _ hbl
            refine ih (rest.drop 2) _ ?_ ?_ ⟨hs.1, ?_, ?_⟩
            · have := List.length_drop 2 rest
              omega
            · intro hmem
              exact hrest (List.drop_subset 2 rest hmem)
            · rw [hs.2.1, hs.2.2.1]
              show (moveCursorLeft b 1).cursor.x < b.width
              simp only [moveCursorLeft]
              omega
            · rw [hs.2.2.2]
              exact hstate
          -- lone BS
          · refine ih rest _ hrlen hrest ⟨⟨hw, hy, hlw, hms⟩, ?_, hstate⟩
            simp only [moveCursorLeft]
            omega
          -- text batch (the ESC branch is impossible: hc27)
          · obtain ⟨b1, hrun1, hinv1, hx1, hes1⟩ :=
              addCharBatch_inv cfg (collectBatch b.cursor.x b.width [c] rest).1 b
                ⟨hw, hy, hlw, hms⟩ hx
            rw [hrun1]
            refine ih (collectBatch b.cursor.x b.width [c] rest).2 b1 ?_ ?_
              ⟨hinv1, hx1, ?_⟩
            · have := collectBatch_snd_length b.cursor.x b.width [c] rest
              omega
            · intro hmem
              exact hrest (collectBatch_snd_subset b.cursor.x b.width rest [c] 27 hmem)
            · rw [hes1]
              exact hstate


theorem mapIdx_lines_length (f : Nat → SLine → SLine)
    (hf : ∀ i l, (f i l).length = l.length) (lines : List SLine) (w : Nat)
    (hl : ∀ l ∈ lines, l.length = w) : ∀ l' ∈ lines.mapIdx f, l'.length = w := by
  intro l' hmem
  obtain ⟨⟨i, hi⟩, hget⟩ := List.mem_iff_get.mp hmem
  have hi' : i < lines.length := by
    simpa [List.length_mapIdx] using hi
  rw [List.get_mapIdx lines f i hi'] at hget
  rw [← hget, hf]
  exact hl _ (List.get_mem lines i hi')

theorem clearSelection_inv (b : ScreenBuffer) (h : CInv b) :
    CInv (clearSelection b) := by
  obtain ⟨⟨hw, hy, hlw, hms⟩, hx, hstate⟩ := h
  refine ⟨⟨hw, ?_, ?_, hms⟩, hx, hstate⟩
  · simpa [clearSelection] using hy
  · intro l hl
    simp only [clearSelection, List.mem_map] at hl
    obtain ⟨l0, hl0, rfl⟩ := hl
    simp [clearSelection, lineClearSelection, hlw l0 hl0]

theorem updateSelectionHighlighting_inv (b : ScreenBuffer) (h : CInv b) :
    CInv (updateSelectionHighlighting b) := by
  obtain ⟨⟨hw, hy, hlw, hms⟩, hx, hstate⟩ := h
  have hclr : ∀ l ∈ b.lines.map lineClearSelection, l.length = b.width := by
    intro l hl
    simp only [List.mem_map] at hl
    obtain ⟨l0, hl0, rfl⟩ := hl
    simp [lineClearSelection, hlw l0 hl0]
  unfold updateSelectionHighlighting
  rcases b.selectionStart with _ | s0 <;> rcases b.selectionEnd with _ | e0 <;>
    try exact ⟨⟨hw, by simpa using hy, hclr, hms⟩, hx, hstate⟩
  refine ⟨⟨hw, ?_, ?_, hms⟩, hx, hstate⟩
  · simpa [List.length_mapIdx] using hy
  · refine mapIdx_lines_length _ ?_ _ b.width hclr
    intro i l
    dsimp only
    split
    · simp [List.length_mapIdx]
    · rfl

theorem applyOp_inv (cfg : Config) (b : ScreenBuffer) (op : SBOp)
    (hfree : escFreeOp op) (h : CInv b) :
    ∃ b', applyOp cfg b op = some b' ∧ CInv b' := by
  obtain ⟨⟨hw, hy, hlw, hms⟩, hx, hstate⟩ := h
  cases op with
  | data cs =>
      obtain ⟨b1, hrun, hinv1⟩ := processChars_inv cfg cs.length cs b le_rfl hfree
        ⟨⟨hw, hy, hlw, hms⟩, hx, hstate⟩
      refine ⟨scrollToBottom b1, ?_, ?_⟩
      · simp [applyOp, addData, hrun]
      · obtain ⟨⟨hw1, hy1, hlw1, hms1⟩, hx1, hs1⟩ := hinv1
        exact ⟨⟨hw1, hy1, hlw1, hms1⟩, hx1, hs1⟩
  | uiScrollUp n =>
      exact ⟨_, rfl, clearSelection_inv _ ⟨⟨hw, hy, hlw, hms⟩, hx, hstate⟩⟩
  | uiScrollDown n =>
      exact ⟨_, rfl, clearSelection_inv _ ⟨⟨hw, hy, hlw, hms⟩, hx, hstate⟩⟩
  | uiScrollTop => exact ⟨_, rfl, ⟨⟨hw, hy, hlw, hms⟩, hx, hstate⟩⟩
  | uiScrollBottom => exact ⟨_, rfl, ⟨⟨hw, hy, hlw, hms⟩, hx, hstate⟩⟩
  | uiStartSelection x y =>
      have h1 := clearSelection_inv b ⟨⟨hw, hy, hlw, hms⟩, hx, hstate⟩
      obtain ⟨⟨hw1, hy1, hlw1, hms1⟩, hx1, hs1⟩ := h1
      exact ⟨_, rfl, ⟨⟨hw1, hy1, hlw1, hms1⟩, hx1, hs1⟩⟩
  | uiUpdateSelection x y =>
      have h1 := updateSelectionHighlighting_inv
        ({ b with selectionEnd := some (x, b.viewStart + y) })
        ⟨⟨hw, hy, hlw, hms⟩, hx, hstate⟩
      obtain ⟨⟨hw1, hy1, hlw1, hms1⟩, hx1, hs1⟩ := h1
      exact ⟨_, rfl, ⟨⟨hw1, hy1, hlw1, hms1⟩, hx1, hs1⟩⟩
  | uiCopySelection =>
      exact ⟨_, rfl, clearSelection_inv _ ⟨⟨hw, hy, hlw, hms⟩, hx, hstate⟩⟩
  | uiClearBuffer =>
      refine ⟨_, rfl, ⟨⟨hw, ?_, ?_, hms⟩, ?_, hstate⟩⟩
      · simp [clearBuffer]
      · intro l hl
        simp only [clearBuffer, List.mem_singleton] at hl
        simp [hl, newDefaultLine, clearBuffer]
      · exact hw

theorem runOps_inv (cfg : Config) (ops : List SBOp) : ∀ (b : ScreenBuffer),
    (∀ op ∈ ops, escFreeOp op) → CInv b →
      ∃ b', runOps cfg b ops = some b' ∧ CInv b' := by
  induction ops with
  | nil => intro b _ h; exact ⟨b, rfl, h⟩
  | cons op ops ih =>
      intro b hfree h
      obtain ⟨b1, happ, h1⟩ := applyOp_inv cfg b op (hfree op (by simp)) h
      obtain ⟨b', hrun, h'⟩ := ih b1 (fun o ho => hfree o (by simp [ho])) h1
      refine ⟨b', ?_, h'⟩
      rw [runOps, happ]
      exact hrun

/-- C5 amended: starting from `ScreenBuffer::new` with a positive width,
any sequence of operations whose `add_data` inputs contain no ESC byte
(plain text, control bytes, and all UI commands) keeps the cursor in
bounds: `cursor.x ∈ [0, W)` and `cursor.y ∈ [0, len(lines))` — and no
operation in the sequence panics.  (CSI sequences break the bounds;
see the counterexample.) -/
theorem c5_cursor_bounds_amended (cfg : Config) (w h : Nat) (hw : 1 ≤ w)
    (ops : List SBOp) (hfree : ∀ op ∈ ops, escFreeOp op) :
    ∃ b', runOps cfg (ScreenBuffer.new cfg w h) ops = some b' ∧
      b'.cursor.x < b'.width ∧ b'.cursor.y < b'.lines.length := by
  have hinv : CInv (ScreenBuffer.new cfg w h) := by
    refine ⟨⟨hw, ?_, ?_, ?_⟩, hw, rfl⟩
    · simp [ScreenBuffer.new]
    · intro l hl
      simp only [ScreenBuffer.new, List.mem_singleton] at hl
      simp [hl, newDefaultLine, ScreenBuffer.new]
    · simp [ScreenBuffer.new, MAX_SCROLLBACK]
  obtain ⟨b', hrun, ⟨⟨_, hy, _, _⟩, hx, _⟩⟩ := runOps_inv cfg ops _ hfree hinv
  exact ⟨b', hrun, hx, hy⟩

/-- Witness for the amended C5: an 80×24 buffer fed `"hi\n"` and scrolled. -/
theorem c5_cursor_bounds_witness :
    ∃ b', runOps cfg0 (ScreenBuffer.new cfg0 80 24)
        [SBOp.data [104, 105, 10], SBOp.uiScrollUp 3] = some b' ∧
      b'.cursor.x < b'.width ∧ b'.cursor.y < b'.lines.length :=
  c5_cursor_bounds_amended cfg0 80 24 (by decide)
    [SBOp.data [104, 105, 10], SBOp.uiScrollUp 3]
    (by intro op hop
        fin_cases hop <;> simp [escFreeOp])

end Sericom
